import Mathlib

/-!
Verification of the AddressBook core of `bot_helper.py` (a command-line
contact manager).  The Python source is shallowly embedded: every class
method that the specification talks about becomes a pure Lean function,
Python exceptions become `Except` errors, and `datetime` values become
explicit `Date` triples with proleptic-Gregorian ordinal arithmetic
(the same arithmetic CPython's `datetime` module uses).  Strings are
modelled as `List Char`.
-/

namespace BotHelper

/-- Python strings are sequences of unicode code points; we model them as
`List Char`. -/
abbrev Str := List Char

/-- The error kinds raised by the source (`ValueError` with the various
messages, and `KeyError`), grouped by the classification the spec uses:
`invalidFormat` (malformed phone / date text), `invalidDate` (raised from
inside `Birthday.__init__`'s try-block, which re-raises every `ValueError`
as "Invalid date. Make sure the date is real."), `invalidArgument`
("New phone number cannot be the same as the old one."), `notFound`
(missing phone or `KeyError` on a missing address-book key). -/
inductive PyErr where
  | invalidFormat
  | invalidDate
  | invalidArgument
  | notFound
deriving DecidableEq

instance {ε α : Type} [DecidableEq ε] [DecidableEq α] : DecidableEq (Except ε α) := fun a b =>
  match a, b with
  | Except.ok x, Except.ok y =>
      if h : x = y then isTrue (congrArg Except.ok h)
      else isFalse (fun hh => h (Except.ok.inj hh))
  | Except.error e, Except.error f =>
      if h : e = f then isTrue (congrArg Except.error h)
      else isFalse (fun hh => h (Except.error.inj hh))
  | Except.ok _, Except.error _ => isFalse (fun hh => Except.noConfusion hh)
  | Except.error _, Except.ok _ => isFalse (fun hh => Except.noConfusion hh)

/-- A calendar date, as in `datetime.date`: year/month/day. -/
structure Date where
  year : Nat
  month : Nat
  day : Nat
deriving DecidableEq

/-- Gregorian leap-year rule, as used by `datetime` (CPython `_is_leap`). -/
def isLeap (y : Nat) : Bool :=
  (y % 4 == 0 && y % 100 != 0) || y % 400 == 0

/-- Days in a month of a given year (CPython `_days_in_month`); `0` for a
month index outside `1..12`. -/
def daysInMonth (y m : Nat) : Nat :=
  if m = 2 then (if isLeap y then 29 else 28)
  else if m = 1 ∨ m = 3 ∨ m = 5 ∨ m = 7 ∨ m = 8 ∨ m = 10 ∨ m = 12 then 31
  else if m = 4 ∨ m = 6 ∨ m = 9 ∨ m = 11 then 30
  else 0

/-- Cumulative days before month `m` in a non-leap year (CPython's
`_DAYS_BEFORE_MONTH` table); `0` for an index outside `1..12`. -/
def monthTable (m : Nat) : Nat :=
  if m = 1 then 0
  else if m = 2 then 31
  else if m = 3 then 59
  else if m = 4 then 90
  else if m = 5 then 120
  else if m = 6 then 151
  else if m = 7 then 181
  else if m = 8 then 212
  else if m = 9 then 243
  else if m = 10 then 273
  else if m = 11 then 304
  else if m = 12 then 334
  else 0

/-- Days in year `y` before the first of month `m` (CPython
`_days_before_month`). -/
def daysBeforeMonth (y m : Nat) : Nat :=
  monthTable m + (if 2 < m && isLeap y then 1 else 0)

/-- Days before January 1 of year `y` in the proleptic Gregorian calendar
(CPython `_days_before_year`). -/
def daysBeforeYear (y : Nat) : Nat :=
  (y - 1) * 365 + (y - 1) / 4 - (y - 1) / 100 + (y - 1) / 400

/-- The `datetime.date.toordinal`: day number with `0001-01-01` as day 1. -/
def toordinal (d : Date) : Nat :=
  daysBeforeYear d.year + daysBeforeMonth d.year d.month + d.day

/-- The `datetime.date.weekday`: Monday = 0 … Sunday = 6.  `0001-01-01` of the
proleptic Gregorian calendar is a Monday. -/
def weekday (d : Date) : Nat :=
  (toordinal d + 6) % 7

/-- Calendar validity as enforced by the `datetime` constructors (year at
least `MINYEAR = 1`, month `1..12`, day `1..days_in_month`).  The model
leaves out the `MAXYEAR = 9999` ceiling, which the program never nears. -/
def validDate (y m d : Nat) : Bool :=
  decide (1 ≤ y) && decide (1 ≤ m) && decide (m ≤ 12) &&
    decide (1 ≤ d) && decide (d ≤ daysInMonth y m)

/-- The calendar successor of a date. -/
def nextDay (d : Date) : Date :=
  if d.day < daysInMonth d.year d.month then ⟨d.year, d.month, d.day + 1⟩
  else if d.month < 12 then ⟨d.year, d.month + 1, 1⟩
  else ⟨d.year + 1, 1, 1⟩

/-- Model of `d + timedelta(days = k)` for a calendar date: `k` calendar successors. -/
def addDays (d : Date) (k : Nat) : Date :=
  Nat.iterate nextDay k d

/-- Python `date` comparison is lexicographic on (year, month, day). -/
def dateLt (a b : Date) : Bool :=
  decide (a.year < b.year ∨ (a.year = b.year ∧
    (a.month < b.month ∨ (a.month = b.month ∧ a.day < b.day))))

/-- Comparison `a <= b` on dates, i.e. `¬ b < a` for the total lexicographic order. -/
def dateLe (a b : Date) : Bool :=
  !dateLt b a

/-- Numeric value of an ASCII digit character. -/
def digitVal (c : Char) : Nat :=
  c.toNat - 48

/-- The guard `re.match(r"^\d{2}\.\d{2}\.\d{4}$", value)` in
`Birthday.__init__`: ten characters `DD.MM.YYYY`, or the same followed by a
single trailing newline (`$` also matches just before a final newline).
`\d` is modelled as an ASCII digit; Python's regex `\d` additionally
matches non-ASCII decimal digits, which `strptime` then rejects — a corner
none of the verified claims depends on. -/
def matchesDatePattern (s : Str) : Bool :=
  match s with
  | [d1, d2, '.', m1, m2, '.', y1, y2, y3, y4] =>
      d1.isDigit && d2.isDigit && m1.isDigit && m2.isDigit &&
        y1.isDigit && y2.isDigit && y3.isDigit && y4.isDigit
  | [d1, d2, '.', m1, m2, '.', y1, y2, y3, y4, '\n'] =>
      d1.isDigit && d2.isDigit && m1.isDigit && m2.isDigit &&
        y1.isDigit && y2.isDigit && y3.isDigit && y4.isDigit
  | _ => false

/-- Model of `datetime.strptime(value, "%d.%m.%Y")`, restricted to the exact
`DD.MM.YYYY` shape: in this program every call site either runs after the
anchored regex above or receives a stored value that already passed it, so
`strptime`'s leniency about 1-digit fields never comes into play.  Returns
`none` where `strptime` raises `ValueError` (wrong shape, or a field out of
calendar range). -/
def strptimeDMY (s : Str) : Option Date :=
  match s with
  | [d1, d2, '.', m1, m2, '.', y1, y2, y3, y4] =>
      if d1.isDigit && d2.isDigit && m1.isDigit && m2.isDigit &&
          y1.isDigit && y2.isDigit && y3.isDigit && y4.isDigit then
        let dd := 10 * digitVal d1 + digitVal d2
        let mm := 10 * digitVal m1 + digitVal m2
        let yy := 1000 * digitVal y1 + 100 * digitVal y2 +
          10 * digitVal y3 + digitVal y4
        if validDate yy mm dd then some ⟨yy, mm, dd⟩ else none
      else none
  | _ => none

/-- Python `str.isdigit` on a single character.  It is true for the ASCII
digits and also for further unicode digit code points; the model lists the
superscript digits U+00B9, U+00B2, U+00B3 and the Arabic-Indic digits
U+0660–U+0669 as representatives of the non-ASCII part of Python's table
(the full table holds only further non-ASCII code points). -/
def pyIsDigitChar (c : Char) : Bool :=
  c.isDigit || c == '¹' || c == '²' || c == '³' ||
    (0x660 ≤ c.toNat && c.toNat ≤ 0x669)

/-- Python `str.isdigit`: false on the empty string, else all characters
digits. -/
def pyIsDigitStr (s : Str) : Bool :=
  !s.isEmpty && s.all pyIsDigitChar

/-- Python `str.strip()` whitespace test, for the ASCII whitespace
characters (Python also strips some further unicode spaces; no claim
depends on those). -/
def isPySpace (c : Char) : Bool :=
  c == ' ' || c == '\t' || c == '\n' || c == '\r' ||
    c.toNat == 0xb || c.toNat == 0xc

/-- Drop trailing whitespace. -/
def stripEnd (s : Str) : Str :=
  (s.reverse.dropWhile isPySpace).reverse

/-- Python `str.strip()`: drop leading and trailing whitespace. -/
def pyStrip (s : Str) : Str :=
  stripEnd (s.dropWhile isPySpace)

/-- The `Name.__init__`: `self.value = value.strip()`.  It never raises, so it
is a total function returning the stored value. -/
def mkName (s : Str) : Str :=
  pyStrip s

/-- The `Phone.__init__` / `Phone._validate_phone`: raises `ValueError` when
`value.isdigit()` is false or the length is not 10, else stores the string
unchanged. -/
def mkPhone (s : Str) : Except PyErr Str :=
  if !pyIsDigitStr s then .error .invalidFormat
  else if s.length ≠ 10 then .error .invalidFormat
  else .ok s

/-- The constructor `Birthday.__init__`.  `today` stands for `datetime.now()` /
`datetime.today()` (the current date; the code builds `date_object` at
midnight, so `date_object > datetime.now()` is exactly a strict comparison
of the calendar dates).  The regex failure raises "Invalid date format"
(`invalidFormat`); every `ValueError` inside the `try` block — from
`strptime` or from the explicit range checks — is re-raised as the generic
"Invalid date" (`invalidDate`). -/
def mkBirthday (today : Date) (value : Str) : Except PyErr Str :=
  if !matchesDatePattern value then .error .invalidFormat
  else
    match strptimeDMY value with
    | none => .error .invalidDate
    | some d =>
      if ¬(1 ≤ d.month ∧ d.month ≤ 12) then .error .invalidDate
      else if d.year > today.year ∨ d.year ≤ 0 then .error .invalidDate
      else if 2025 ≤ d.year then .error .invalidDate
      else if dateLt today d then .error .invalidDate
      else .ok value

/-- A `Record`: a (already stripped) name, an ordered list of phone-number
strings (the `value` fields of the `Phone` objects), and an optional stored
birthday string (the `value` of the `Birthday` object). -/
structure Record where
  name : Str
  phones : List Str
  birthday : Option Str
deriving DecidableEq

/-- The `Record.__init__`: `self.name = Name(name)`, empty phone list, no
birthday. -/
def mkRecord (rawName : Str) : Record :=
  ⟨mkName rawName, [], none⟩

/-- The `Record.add_phone` with Python's exception semantics made explicit:
the returned pair is (the record after the call, the raised error if any).
`Phone(phone)` is constructed before `self.phones.append(...)` runs, so a
raise leaves the record exactly as it was. -/
def addPhone (r : Record) (raw : Str) : Record × Option PyErr :=
  match mkPhone raw with
  | .error e => (r, some e)
  | .ok p => ({ r with phones := r.phones ++ [p] }, none)

/-- The `Record.edit_phone`: find the first phone whose value equals
`oldPhone` (else `notFound`); then reject `oldPhone == newPhone`
(`invalidArgument`); then validate `newPhone` (`invalidFormat`); else
overwrite the found slot's value in place. -/
def editPhone (r : Record) (oldPhone newPhone : Str) : Except PyErr Record :=
  match r.phones.findIdx? (fun p => p == oldPhone) with
  | none => .error .notFound
  | some i =>
    if oldPhone == newPhone then .error .invalidArgument
    else if !pyIsDigitStr newPhone then .error .invalidFormat
    else if newPhone.length ≠ 10 then .error .invalidFormat
    else .ok { r with phones := r.phones.set i newPhone }

/-- The `Record.add_birthday`: construct a `Birthday` and assign it,
overwriting any existing one; a raise leaves the record unchanged. -/
def addBirthday (today : Date) (r : Record) (raw : Str) : Except PyErr Record :=
  match mkBirthday today raw with
  | .error e => .error e
  | .ok v => .ok { r with birthday := some v }

/-- An `AddressBook`'s `data` dict: an insertion-ordered association list
with unique keys, exactly Python's `dict` iteration model. -/
abbrev Book := List (Str × Record)

/-- The `dict.__setitem__`: overwrite in place if the key is present (keeping
its position), else append at the end. -/
def dictSet : Book → Str → Record → Book
  | [], k, v => [(k, v)]
  | (k', v') :: rest, k, v =>
      if k' = k then (k, v) :: rest else (k', v') :: dictSet rest k v

/-- The `AddressBook.add_record`: `self.data[record.name.value] = record`. -/
def addRecord (book : Book) (r : Record) : Book :=
  dictSet book r.name r

/-- The `AddressBook.find`: `self.data.get(name, None)`. -/
def find (book : Book) (nm : Str) : Option Record :=
  match book with
  | [] => none
  | (k, v) :: rest => if k = nm then some v else find rest nm

/-- The `dict.__delitem__` on a key known or not to be present: remove the
entry with that key (keys are unique, so removing the first is removing
the one). -/
def removeKey : Book → Str → Book
  | [], _ => []
  | (k, v) :: rest, nm => if k = nm then rest else (k, v) :: removeKey rest nm

/-- The `AddressBook.delete`: `KeyError` when the name is absent, else remove
the entry. -/
def delete (book : Book) (nm : Str) : Except PyErr Book :=
  if (find book nm).isSome then .ok (removeKey book nm)
  else .error .notFound

/-- The weekend adjustment inside `get_upcoming_birthdays`: Saturday
(weekday 5) is pushed 2 days, Sunday (weekday 6) 1 day. -/
def weekendAdjust (d : Date) : Date :=
  if weekday d = 5 then addDays d 2
  else if weekday d = 6 then addDays d 1
  else d

/-- The `birthday.replace(year = y)` on the parsed birthday: `datetime.replace`
re-validates and raises `ValueError` (here `none`) when the resulting
date does not exist — the day-29 February case. -/
def replaceYear (d : Date) (y : Nat) : Option Date :=
  if validDate y d.month d.day then some ⟨y, d.month, d.day⟩ else none

/-- The occurrence computation of `get_upcoming_birthdays`:
`birthday_this_year = birthday.replace(year=today.year)`, then if that
date is before `today`, `replace(year = today.year + 1)`.  `none` when
either `replace` raises. -/
def occurrenceOf (today : Date) (bd : Date) : Option Date :=
  match replaceYear bd today.year with
  | none => none
  | some bty => if dateLt bty today then replaceYear bd (today.year + 1) else some bty

/-- The `for name, record in self.data.items()` loop of
`get_upcoming_birthdays`, over the remaining entries: skip records without
a birthday; parse the stored value; compute the occurrence (`.error` when
a `ValueError` escapes, which aborts the whole call); keep the entry when
`today <= occurrence <= nextWeek`, reporting the weekend-adjusted date.
Python appends a dict `{"name": ..., "birthday": strftime("%d.%m.%Y")}`;
the model reports the date itself, `strftime` being injective on dates. -/
def upcomingLoop (today nextWeek : Date) : Book → Except PyErr (List (Str × Date))
  | [] => .ok []
  | (nm, rec) :: rest =>
    match rec.birthday with
    | none => upcomingLoop today nextWeek rest
    | some bstr =>
      match strptimeDMY bstr with
      | none => .error .invalidDate
      | some bd =>
        match occurrenceOf today bd with
        | none => .error .invalidDate
        | some occ =>
          if dateLe today occ && dateLe occ nextWeek then
            match upcomingLoop today nextWeek rest with
            | .error e => .error e
            | .ok tail => .ok ((nm, weekendAdjust occ) :: tail)
          else upcomingLoop today nextWeek rest

/-- The query `AddressBook.get_upcoming_birthdays`, with `today` standing for
`datetime.today().date()`: `next_week = today + timedelta(days=7)`, then
the loop above.  The function only reads the book: no record and no stored
birthday is modified by the query. -/
def getUpcomingBirthdays (today : Date) (book : Book) : Except PyErr (List (Str × Date)) :=
  upcomingLoop today (addDays today 7) book

/-- The mutating `AddressBook` operations reachable through the command
loop, for stating reachability invariants: `add_record` of a record built
by `Record(rawName)` and then mutated (phone/birthday mutations never
touch the name), `delete`, and the read-only `find` query.  A raising
`delete` leaves the book unchanged. -/
inductive BookOp where
  | add (rawName : Str) (phones : List Str) (bday : Option Str)
  | del (nm : Str)
  | query (nm : Str)

/-- A record as produced by `Record(rawName)` followed by any sequence of
phone/birthday mutations leaving it with `phones` and `bday`: its name is
the stripped `rawName`. -/
def buildRecord (rawName : Str) (phones : List Str) (bday : Option Str) : Record :=
  ⟨mkName rawName, phones, bday⟩

/-- One step of the operation sequence on the book. -/
def applyOp (book : Book) : BookOp → Book
  | .add raw phs bd => addRecord book (buildRecord raw phs bd)
  | .del nm =>
      match delete book nm with
      | .ok b => b
      | .error _ => book
  | .query _ => book

/-- Run a sequence of operations starting from the empty `AddressBook`. -/
def runOps (ops : List BookOp) : Book :=
  ops.foldl applyOp []

/-- Concrete book: one record whose birthday's occurrence falls exactly
7 days after 2025-06-13. -/
def bookSeven : Book :=
  [(("Alice").toList, ⟨("Alice").toList, [], some (("20.06.2001").toList)⟩)]

/-- Concrete book: one record with the leap-day birthday 29.02.2024,
accepted by `Birthday` validation. -/
def bookLeap : Book :=
  [(("Bob").toList, ⟨("Bob").toList, [], some (("29.02.2024").toList)⟩)]

/-- Concrete book: one record whose birthday's occurrence in 2025 falls on
Saturday 2025-06-14. -/
def bookSat : Book :=
  [(("Carol").toList, ⟨("Carol").toList, [], some (("14.06.2000").toList)⟩)]

/-! ### Calendar arithmetic lemmas -/

theorem isLeap_iff (y : Nat) :
    isLeap y = true ↔ ((y % 4 = 0 ∧ y % 100 ≠ 0) ∨ y % 400 = 0) := by
  simp [isLeap]

set_option maxHeartbeats 1600000 in
theorem daysBeforeYear_succ (y : Nat) (hy : 1 ≤ y) :
    daysBeforeYear (y + 1) = daysBeforeYear y + (if isLeap y then 366 else 365) := by
  by_cases h : ((y % 4 = 0 ∧ y % 100 ≠ 0) ∨ y % 400 = 0)
  · rw [if_pos ((isLeap_iff y).mpr h)]
    unfold daysBeforeYear
    omega
  · have hb : isLeap y = false := by
      rw [← Bool.not_eq_true, isLeap_iff]
      exact h
    simp only [hb, Bool.false_eq_true, if_false]
    unfold daysBeforeYear
    omega

theorem daysInMonth_pos (y m : Nat) (hm1 : 1 ≤ m) (hm2 : m ≤ 12) :
    1 ≤ daysInMonth y m := by
  unfold daysInMonth
  split_ifs <;> omega

theorem toordinal_nextDay (d : Date) (h : validDate d.year d.month d.day = true) :
    toordinal (nextDay d) = toordinal d + 1 := by
  obtain ⟨y, m, dd⟩ := d
  simp only [validDate, Bool.and_eq_true, decide_eq_true_eq] at h
  obtain ⟨⟨⟨⟨hy, hm1⟩, hm2⟩, hd1⟩, hd2⟩ := h
  unfold nextDay
  by_cases h1 : dd < daysInMonth y m
  · simp only [if_pos h1, toordinal]
    omega
  · have hdd : dd = daysInMonth y m := Nat.le_antisymm hd2 (Nat.le_of_not_lt h1)
    by_cases h2 : m < 12
    · simp only [if_neg h1, if_pos h2, toordinal]
      subst hdd
      interval_cases m <;>
        (by_cases hL : isLeap y = true <;>
          simp [daysBeforeMonth, monthTable, daysInMonth, hL])
    · have hm12 : m = 12 := by omega
      subst hm12
      simp only [daysInMonth, if_neg (by omega : ¬(12 = 2))] at hdd
      norm_num at hdd
      subst hdd
      simp only [if_neg h1, if_neg h2, toordinal]
      have hs := daysBeforeYear_succ y hy
      by_cases hL : isLeap y = true <;>
        simp [daysBeforeMonth, monthTable, hL] at hs ⊢ <;> omega

theorem validDate_nextDay (d : Date) (h : validDate d.year d.month d.day = true) :
    validDate (nextDay d).year (nextDay d).month (nextDay d).day = true := by
  obtain ⟨y, m, dd⟩ := d
  simp only [validDate, Bool.and_eq_true, decide_eq_true_eq] at h ⊢
  obtain ⟨⟨⟨⟨hy, hm1⟩, hm2⟩, hd1⟩, hd2⟩ := h
  unfold nextDay
  by_cases h1 : dd < daysInMonth y m
  · simp only [if_pos h1]
    exact ⟨⟨⟨⟨hy, hm1⟩, hm2⟩, by omega⟩, h1⟩
  · by_cases h2 : m < 12
    · simp only [if_neg h1, if_pos h2]
      exact ⟨⟨⟨⟨hy, by omega⟩, by omega⟩, Nat.le_refl 1⟩,
        daysInMonth_pos y (m + 1) (by omega) (by omega)⟩
    · simp only [if_neg h1, if_neg h2]
      exact ⟨⟨⟨⟨by omega, by omega⟩, by omega⟩, Nat.le_refl 1⟩,
        daysInMonth_pos (y + 1) 1 (by omega) (by omega)⟩

theorem addDays_spec (k : Nat) : ∀ d : Date, validDate d.year d.month d.day = true →
    validDate (addDays d k).year (addDays d k).month (addDays d k).day = true ∧
    toordinal (addDays d k) = toordinal d + k := by
  induction k with
  | zero => exact fun d h => ⟨h, rfl⟩
  | succ n ih =>
    intro d h
    have hstep : addDays d (n + 1) = addDays (nextDay d) n := rfl
    rw [hstep]
    have h1 := validDate_nextDay d h
    have h2 := toordinal_nextDay d h
    have h3 := ih (nextDay d) h1
    exact ⟨h3.1, by rw [h3.2, h2]; omega⟩

theorem weekday_addDays (d : Date) (k : Nat) (h : validDate d.year d.month d.day = true) :
    weekday (addDays d k) = (weekday d + k) % 7 := by
  have h2 := (addDays_spec k d h).2
  unfold weekday
  rw [h2]
  omega

theorem occurrenceOf_valid (today bd occ : Date) (h : occurrenceOf today bd = some occ) :
    validDate occ.year occ.month occ.day = true := by
  unfold occurrenceOf at h
  split at h
  · cases h
  · rename_i bty heq
    split at h
    · unfold replaceYear at h
      split at h
      · rename_i hv
        injection h with h
        subst h
        exact hv
      · cases h
    · injection h with h
      subst h
      unfold replaceYear at heq
      split at heq
      · rename_i hv
        injection heq with heq
        subst heq
        exact hv
      · cases heq

/-! ### Lemmas about `pyStrip` -/

theorem dropWhile_idem (p : Char → Bool) (l : List Char) :
    List.dropWhile p (List.dropWhile p l) = List.dropWhile p l := by
  induction l with
  | nil => simp
  | cons a t ih =>
    by_cases h : p a = true
    · simp [List.dropWhile_cons, h, ih]
    · simp [List.dropWhile_cons, h]

theorem dropWhile_head_false (p : Char → Bool) (l : List Char) (a : Char) (rest : List Char)
    (h : List.dropWhile p l = a :: rest) : p a = false := by
  induction l with
  | nil => cases h
  | cons b t ih =>
    rw [List.dropWhile_cons] at h
    by_cases hb : p b = true
    · rw [if_pos hb] at h
      exact ih h
    · rw [if_neg hb] at h
      injection h with h1 _
      rw [← h1]
      revert hb
      cases p b <;> simp

theorem dropWhile_getLast? (p : Char → Bool) (l : List Char)
    (h : List.dropWhile p l ≠ []) : (List.dropWhile p l).getLast? = l.getLast? := by
  induction l with
  | nil => simp at h
  | cons b t ih =>
    rw [List.dropWhile_cons] at h ⊢
    by_cases hb : p b = true
    · rw [if_pos hb] at h ⊢
      rw [ih h]
      have ht : t ≠ [] := by
        intro he
        subst he
        simp at h
      obtain ⟨c, t', rfl⟩ := List.exists_cons_of_ne_nil ht
      rw [List.getLast?_cons_cons]
    · rw [if_neg hb]

theorem pyStrip_idem (s : Str) : pyStrip (pyStrip s) = pyStrip s := by
  unfold pyStrip stripEnd
  by_cases hne : List.dropWhile isPySpace (List.dropWhile isPySpace s).reverse = []
  · simp [hne]
  · have hhead : ((List.dropWhile isPySpace (List.dropWhile isPySpace s).reverse).reverse).head? =
        (List.dropWhile isPySpace s).head? := by
      rw [List.head?_reverse, dropWhile_getLast? _ _ hne, List.getLast?_reverse]
    obtain ⟨a, w, hw⟩ := List.exists_cons_of_ne_nil hne
    have htne : (List.dropWhile isPySpace (List.dropWhile isPySpace s).reverse).reverse ≠ [] := by
      rw [hw]
      simp
    obtain ⟨b, t', ht⟩ := List.exists_cons_of_ne_nil htne
    have hub : (List.dropWhile isPySpace s).head? = some b := by
      rw [← hhead, ht]
      rfl
    obtain ⟨u', hu⟩ : ∃ u', List.dropWhile isPySpace s = b :: u' := by
      cases hus : List.dropWhile isPySpace s with
      | nil => rw [hus] at hub; cases hub
      | cons x xs =>
        rw [hus] at hub
        injection hub with hub
        exact ⟨xs, by rw [hub]⟩
    have hpb : isPySpace b = false := dropWhile_head_false isPySpace s b u' hu
    rw [ht]
    rw [List.dropWhile_cons, hpb]
    simp only [Bool.false_eq_true, if_false]
    rw [← ht]
    rw [List.reverse_reverse]
    rw [dropWhile_idem]

/-! ### Lemmas about the `AddressBook` dictionary -/

theorem find_dictSet (book : Book) (k : Str) (v : Record) (k' : Str) :
    find (dictSet book k v) k' = if k = k' then some v else find book k' := by
  induction book with
  | nil => simp [dictSet, find]
  | cons e rest ih =>
    obtain ⟨k0, v0⟩ := e
    by_cases h0 : k0 = k
    · subst h0
      simp only [dictSet, if_pos rfl, find]
      by_cases hk : k0 = k'
      · simp [hk]
      · simp [hk]
    · simp only [dictSet, if_neg h0, find, ih]
      by_cases hk : k0 = k' <;> by_cases hk' : k = k' <;>
        simp [hk, hk'] <;> exact absurd (hk'.symm ▸ hk) h0

theorem find_some_mem (book : Book) (k : Str) (r : Record)
    (h : find book k = some r) : (k, r) ∈ book := by
  induction book with
  | nil => cases h
  | cons e rest ih =>
    obtain ⟨k0, v0⟩ := e
    rw [find] at h
    by_cases hk : k0 = k
    · rw [if_pos hk] at h
      injection h with h
      subst h
      subst hk
      exact List.mem_cons_self _ _
    · rw [if_neg hk] at h
      exact List.mem_cons_of_mem _ (ih h)

theorem keys_functional (book : Book) (hnd : (book.map Prod.fst).Nodup)
    (n : Str) (r r' : Record) (h1 : (n, r) ∈ book) (h2 : (n, r') ∈ book) : r = r' := by
  induction book with
  | nil => cases h1
  | cons e rest ih =>
    obtain ⟨k0, v0⟩ := e
    rw [List.map_cons, List.nodup_cons] at hnd
    rcases List.mem_cons.mp h1 with h1h | h1t <;> rcases List.mem_cons.mp h2 with h2h | h2t
    · rw [Prod.mk.injEq] at h1h h2h
      rw [h1h.2, h2h.2]
    · injection h1h with hn _
      subst hn
      exact absurd (List.mem_map_of_mem Prod.fst h2t) hnd.1
    · injection h2h with hn _
      subst hn
      exact absurd (List.mem_map_of_mem Prod.fst h1t) hnd.1
    · exact ih hnd.2 h1t h2t

theorem mem_dictSet (book : Book) (k : Str) (v : Record) (e : Str × Record)
    (h : e ∈ dictSet book k v) : e = (k, v) ∨ e ∈ book := by
  induction book with
  | nil => simpa [dictSet] using h
  | cons e0 rest ih =>
    obtain ⟨k0, v0⟩ := e0
    rw [dictSet] at h
    by_cases h0 : k0 = k
    · rw [if_pos h0] at h
      rcases List.mem_cons.mp h with h | h
      · exact Or.inl h
      · exact Or.inr (List.mem_cons_of_mem _ h)
    · rw [if_neg h0] at h
      rcases List.mem_cons.mp h with h | h
      · exact Or.inr (h ▸ List.mem_cons_self _ _)
      · rcases ih h with h | h
        · exact Or.inl h
        · exact Or.inr (List.mem_cons_of_mem _ h)

theorem mem_removeKey (book : Book) (nm : Str) (e : Str × Record)
    (h : e ∈ removeKey book nm) : e ∈ book := by
  induction book with
  | nil => simpa [removeKey] using h
  | cons e0 rest ih =>
    obtain ⟨k0, v0⟩ := e0
    rw [removeKey] at h
    by_cases h0 : k0 = nm
    · rw [if_pos h0] at h
      exact List.mem_cons_of_mem _ h
    · rw [if_neg h0] at h
      rcases List.mem_cons.mp h with h | h
      · exact h ▸ List.mem_cons_self _ _
      · exact List.mem_cons_of_mem _ (ih h)

/-! ### Lemmas about the upcoming-birthdays loop -/

theorem upcomingLoop_mem (today nw : Date) (book : Book) :
    ∀ (out : List (Str × Date)) (n : Str) (dt : Date),
      upcomingLoop today nw book = Except.ok out → (n, dt) ∈ out →
      ∃ r b bd occ, (n, r) ∈ book ∧ r.birthday = some b ∧ strptimeDMY b = some bd ∧
        occurrenceOf today bd = some occ ∧
        (dateLe today occ && dateLe occ nw) = true ∧ dt = weekendAdjust occ := by
  induction book with
  | nil =>
    intro out n dt hok hmem
    rw [upcomingLoop] at hok
    injection hok with hok
    subst hok
    cases hmem
  | cons e rest ih =>
    obtain ⟨nm, rec⟩ := e
    intro out n dt hok hmem
    rw [upcomingLoop] at hok
    split at hok
    · obtain ⟨r, b, bd, occ, hm, h2, h3, h4, h5, h6⟩ := ih out n dt hok hmem
      exact ⟨r, b, bd, occ, List.mem_cons_of_mem _ hm, h2, h3, h4, h5, h6⟩
    · rename_i bstr hb
      split at hok
      · cases hok
      · rename_i bd0 hsp
        split at hok
        · cases hok
        · rename_i occ0 hoc
          split at hok
          · rename_i hw
            split at hok
            · cases hok
            · rename_i tail hrest
              injection hok with hok
              subst hok
              rcases List.mem_cons.mp hmem with hh | ht
              · injection hh with hh1 hh2
                subst hh1
                exact ⟨rec, bstr, bd0, occ0, List.mem_cons_self _ _, hb, hsp, hoc, hw, hh2⟩
              · obtain ⟨r, b, bd, occ, hm, h2, h3, h4, h5, h6⟩ := ih tail n dt hrest ht
                exact ⟨r, b, bd, occ, List.mem_cons_of_mem _ hm, h2, h3, h4, h5, h6⟩
          · obtain ⟨r, b, bd, occ, hm, h2, h3, h4, h5, h6⟩ := ih out n dt hok hmem
            exact ⟨r, b, bd, occ, List.mem_cons_of_mem _ hm, h2, h3, h4, h5, h6⟩

theorem upcomingLoop_mem_of (today nw : Date) (book : Book) :
    ∀ (out : List (Str × Date)) (n : Str) (r : Record) (b : Str) (bd occ : Date),
      upcomingLoop today nw book = Except.ok out →
      (n, r) ∈ book → r.birthday = some b → strptimeDMY b = some bd →
      occurrenceOf today bd = some occ →
      (dateLe today occ && dateLe occ nw) = true →
      (n, weekendAdjust occ) ∈ out := by
  induction book with
  | nil =>
    intro out n r b bd occ _ hmem
    cases hmem
  | cons e rest ih =>
    obtain ⟨nm, rec⟩ := e
    intro out n r b bd occ hok hmem hb hsp hoc hw
    rw [upcomingLoop] at hok
    rcases List.mem_cons.mp hmem with hh | ht
    · injection hh with hh1 hh2
      subst hh1
      subst hh2
      split at hok
      · rename_i hbn
        rw [hbn] at hb
        cases hb
      · rename_i bstr hbs
        rw [hbs] at hb
        injection hb with hb
        subst hb
        split at hok
        · rename_i hspn
          rw [hspn] at hsp
          cases hsp
        · rename_i bd0 hsps
          rw [hsps] at hsp
          injection hsp with hsp
          subst hsp
          split at hok
          · rename_i hocn
            rw [hocn] at hoc
            cases hoc
          · rename_i occ0 hocs
            rw [hocs] at hoc
            injection hoc with hoc
            subst hoc
            split at hok
            · split at hok
              · cases hok
              · injection hok with hok
                subst hok
                exact List.mem_cons_self _ _
            · rename_i hwn
              exact absurd hw hwn
    · split at hok
      · exact ih out n r b bd occ hok ht hb hsp hoc hw
      · split at hok
        · cases hok
        · split at hok
          · cases hok
          · split at hok
            · split at hok
              · cases hok
              · rename_i tail hrest
                injection hok with hok
                subst hok
                exact List.mem_cons_of_mem _ (ih tail n r b bd occ hrest ht hb hsp hoc hw)
            · exact ih out n r b bd occ hok ht hb hsp hoc hw

/-! ### Small helper lemmas about the value types -/

theorem mkPhone_ok_eq (s v : Str) (h : mkPhone s = Except.ok v) : v = s := by
  unfold mkPhone at h
  split_ifs at h
  injection h with h
  exact h.symm

theorem pyIsDigitChar_ascii (c : Char) (h : c.toNat < 128) :
    pyIsDigitChar c = c.isDigit := by
  unfold pyIsDigitChar
  have h1 : c ≠ '¹' := by
    intro he
    rw [he] at h
    exact absurd h (by decide)
  have h2 : c ≠ '²' := by
    intro he
    rw [he] at h
    exact absurd h (by decide)
  have h3 : c ≠ '³' := by
    intro he
    rw [he] at h
    exact absurd h (by decide)
  have h4 : ¬ (0x660 ≤ c.toNat) := by omega
  have b1 : (c == '¹') = false := beq_eq_false_iff_ne.mpr h1
  have b2 : (c == '²') = false := beq_eq_false_iff_ne.mpr h2
  have b3 : (c == '³') = false := beq_eq_false_iff_ne.mpr h3
  simp [b1, b2, b3, h4]

theorem all_pyIsDigit_ascii (s : Str) (h : ∀ c ∈ s, c.toNat < 128) :
    s.all pyIsDigitChar = s.all Char.isDigit := by
  induction s with
  | nil => rfl
  | cons a t ih =>
    rw [List.all_cons, List.all_cons, pyIsDigitChar_ascii a (h a (List.mem_cons_self a t)),
      ih (fun c hc => h c (List.mem_cons_of_mem a hc))]

theorem findIdx?_beq_none_iff (x : Str) : ∀ (l : List Str) (i : Nat),
    (List.findIdx? (fun q => q == x) l i = none) ↔ x ∉ l := by
  intro l
  induction l with
  | nil => intro i; simp
  | cons a t ih =>
    intro i
    rw [List.findIdx?_cons]
    by_cases ha : (a == x) = true
    · rw [if_pos ha]
      refine iff_of_false ?_ ?_
      · intro h
        cases h
      · intro h
        exact h (by rw [← eq_of_beq ha]; exact List.mem_cons_self a t)
    · rw [if_neg ha]
      rw [ih (i + 1)]
      have hax : a ≠ x := by
        intro he
        subst he
        simp at ha
      constructor
      · intro h hx
        rcases List.mem_cons.mp hx with h1 | h1
        · exact hax h1.symm
        · exact h h1
      · intro h hx
        exact h (List.mem_cons_of_mem a hx)

/-! ### Claim theorems -/

/-- C5, counterexample: the claim "Phone(raw) succeeds exactly iff raw is
10 ASCII digits" fails on the code: a string of ten SUPERSCRIPT TWO
characters (U+00B2) passes Python's unicode-aware `str.isdigit` and the
length check, so `Phone` stores it although none of its characters is an
ASCII digit. -/
theorem phone_superscript_accepted :
    mkPhone (("²²²²²²²²²²").toList) = Except.ok (("²²²²²²²²²²").toList) ∧
    ¬ (∀ c ∈ (("²²²²²²²²²²").toList), c.isDigit = true) := by
  exact ⟨by decide, by decide⟩

/-- C5, amended: restricted to ASCII input — the only inputs on which
Python's `isdigit` coincides with "ASCII digit" — `Phone(raw)` succeeds
with stored value `raw` iff `raw` is exactly 10 ASCII digits, and fails
with `invalidFormat` otherwise.  On non-ASCII input the code follows
Python's wider unicode digit table. -/
theorem phone_ascii_iff (s : Str) (hascii : ∀ c ∈ s, c.toNat < 128) :
    (mkPhone s = Except.ok s ↔ (s.length = 10 ∧ ∀ c ∈ s, c.isDigit = true)) ∧
    (¬(s.length = 10 ∧ ∀ c ∈ s, c.isDigit = true) →
      mkPhone s = Except.error PyErr.invalidFormat) := by
  have hall := all_pyIsDigit_ascii s hascii
  constructor
  · constructor
    · intro hok
      unfold mkPhone at hok
      by_cases h1 : (!pyIsDigitStr s) = true
      · rw [if_pos h1] at hok
        cases hok
      · rw [if_neg h1] at hok
        by_cases h2 : s.length ≠ 10
        · rw [if_pos h2] at hok
          cases hok
        · rw [if_neg h2] at hok
          push_neg at h2
          refine ⟨h2, ?_⟩
          have hpd : pyIsDigitStr s = true := by
            revert h1
            cases pyIsDigitStr s <;> simp
          unfold pyIsDigitStr at hpd
          rw [Bool.and_eq_true] at hpd
          have hdig := hpd.2
          rw [hall] at hdig
          exact List.all_eq_true.mp hdig
    · rintro ⟨hlen, hdig⟩
      have hpd : pyIsDigitStr s = true := by
        unfold pyIsDigitStr
        rw [Bool.and_eq_true]
        refine ⟨?_, ?_⟩
        · cases s with
          | nil => simp at hlen
          | cons a t => rfl
        · rw [hall]
          exact List.all_eq_true.mpr hdig
      unfold mkPhone
      rw [hpd]
      simp [hlen]
  · intro hnot
    unfold mkPhone
    by_cases h1 : (!pyIsDigitStr s) = true
    · rw [if_pos h1]
    · rw [if_neg h1]
      have hpd : pyIsDigitStr s = true := by
        revert h1
        cases pyIsDigitStr s <;> simp
      have hdig : ∀ c ∈ s, c.isDigit = true := by
        unfold pyIsDigitStr at hpd
        rw [Bool.and_eq_true] at hpd
        have := hpd.2
        rw [hall] at this
        exact List.all_eq_true.mp this
      have hlen : s.length ≠ 10 := fun hl => hnot ⟨hl, hdig⟩
      rw [if_pos hlen]

/-- C5 witness: the amended theorem applied to the ASCII string
"0123456789". -/
theorem phone_ascii_iff_witness :
    (mkPhone (("0123456789").toList) = Except.ok (("0123456789").toList) ↔
      ((("0123456789").toList).length = 10 ∧
        ∀ c ∈ (("0123456789").toList), c.isDigit = true)) ∧
    (¬((("0123456789").toList).length = 10 ∧
        ∀ c ∈ (("0123456789").toList), c.isDigit = true) →
      mkPhone (("0123456789").toList) = Except.error PyErr.invalidFormat) :=
  phone_ascii_iff (("0123456789").toList) (by decide)

/-- C6, counterexample: the claim "edit_phone(old, new) with old == new
always fails with InvalidArgument, whether or not old is stored" fails on
the code: on a record with an empty phone list, the lookup of `old` runs
first and raises "Phone ... not found" (`notFound`), not
`invalidArgument`. -/
theorem editPhone_same_absent_notFound :
    editPhone ⟨("A").toList, [], none⟩ (("0123456789").toList) (("0123456789").toList) =
      Except.error PyErr.notFound := by
  decide

/-- C6, amended: `edit_phone(old, old)` always fails, but with
`invalidArgument` exactly when a phone equal to `old` is stored, and with
`notFound` otherwise (the lookup happens before the equality check). -/
theorem editPhone_same_old_new (r : Record) (p : Str) :
    editPhone r p p =
      Except.error (if p ∈ r.phones then PyErr.invalidArgument else PyErr.notFound) := by
  unfold editPhone
  cases hf : List.findIdx? (fun q => q == p) r.phones 0 with
  | none =>
    have hnm : p ∉ r.phones := (findIdx?_beq_none_iff p r.phones 0).mp hf
    rw [if_neg hnm]
  | some i =>
    have hmm : p ∈ r.phones := by
      by_contra hcon
      rw [← findIdx?_beq_none_iff p r.phones 0] at hcon
      rw [hf] at hcon
      cases hcon
    rw [if_pos hmm]
    rw [beq_self_eq_true p]
    simp

/-- C8, counterexample: the claim "every accepted Name is non-empty after
trimming" fails on the code: `Name("   ")` is accepted (the constructor
never raises) and stores the empty string. -/
theorem name_blank_accepted_empty :
    mkName (("   ").toList) = ([] : Str) := by
  decide

/-- C8, amended: every stored name value is trimmed — stripping it again
changes nothing — but non-emptiness is NOT enforced: the stored value can
be empty. -/
theorem mkName_trimmed (s : Str) : pyStrip (mkName s) = mkName s :=
  pyStrip_idem s

/-- C9, confirmed: `add_phone` is all-or-nothing.  `Phone(phone)` is
constructed before the append, so for every malformed input (not exactly
10 digits in Python's sense) the call raises `invalidFormat` and returns
the record — in particular its phone list — exactly as it was. -/
theorem addPhone_all_or_nothing (r : Record) (raw : Str)
    (h : ¬(raw.length = 10 ∧ (∀ c ∈ raw, pyIsDigitChar c = true))) :
    addPhone r raw = (r, some PyErr.invalidFormat) := by
  have herr : mkPhone raw = Except.error PyErr.invalidFormat := by
    unfold mkPhone
    by_cases h1 : (!pyIsDigitStr raw) = true
    · rw [if_pos h1]
    · rw [if_neg h1]
      have hpd : pyIsDigitStr raw = true := by
        revert h1
        cases pyIsDigitStr raw <;> simp
      have hall : ∀ c ∈ raw, pyIsDigitChar c = true := by
        unfold pyIsDigitStr at hpd
        rw [Bool.and_eq_true] at hpd
        exact List.all_eq_true.mp hpd.2
      have hlen : raw.length ≠ 10 := fun hl => h ⟨hl, hall⟩
      rw [if_pos hlen]
  unfold addPhone
  rw [herr]

/-- C9 witness: a malformed two-character phone on a fresh record. -/
theorem addPhone_all_or_nothing_witness :
    addPhone (mkRecord (("A").toList)) (("12").toList) =
      (mkRecord (("A").toList), some PyErr.invalidFormat) :=
  addPhone_all_or_nothing (mkRecord (("A").toList)) (("12").toList) (by decide)

/-- C7, confirmed: `add_record` keys by the record's (stripped) name with
last-write-wins.  Adding a fresh record named `n` carrying only phone `p1`,
then another fresh record named `n` carrying only phone `p2`, makes
`find(n)` return the second record, whose phone list is exactly `[p2]` and
whose birthday is gone — nothing is merged. -/
theorem addRecord_overwrites (book : Book) (n p1 p2 : Str) (r1 r2 : Record)
    (h1 : addPhone (mkRecord n) p1 = (r1, none))
    (h2 : addPhone (mkRecord n) p2 = (r2, none)) :
    find (addRecord (addRecord book r1) r2) (mkName n) = some r2 ∧
    r2.phones = [p2] ∧ r2.birthday = none := by
  have hr2 : r2 = ⟨mkName n, [p2], none⟩ := by
    unfold addPhone at h2
    cases hp : mkPhone p2 with
    | error e =>
      rw [hp] at h2
      injection h2 with _ h2
      cases h2
    | ok q =>
      have hq : q = p2 := mkPhone_ok_eq p2 q hp
      rw [hp] at h2
      injection h2 with h2 _
      rw [← h2, hq]
      rfl
  have hname2 : r2.name = mkName n := by
    rw [hr2]
  constructor
  · unfold addRecord
    rw [find_dictSet, hname2, if_pos rfl]
  · rw [hr2]
    exact ⟨rfl, rfl⟩

/-- C7 witness: add "Alice" with phone 0000000000, then a fresh "Alice"
with phone 1111111111; lookup returns only the second. -/
theorem addRecord_overwrites_witness :
    find (addRecord (addRecord []
        ⟨("Alice").toList, [("0000000000").toList], none⟩)
        ⟨("Alice").toList, [("1111111111").toList], none⟩) (mkName (("Alice").toList)) =
      some ⟨("Alice").toList, [("1111111111").toList], none⟩ ∧
    (⟨("Alice").toList, [("1111111111").toList], none⟩ : Record).phones =
      [("1111111111").toList] ∧
    (⟨("Alice").toList, [("1111111111").toList], none⟩ : Record).birthday = none :=
  addRecord_overwrites [] (("Alice").toList) (("0000000000").toList) (("1111111111").toList)
    ⟨("Alice").toList, [("0000000000").toList], none⟩
    ⟨("Alice").toList, [("1111111111").toList], none⟩ (by decide) (by decide)

/-- Every entry of a book reachable by `add_record`/`delete`/`find` from
the empty book satisfies: the stored record's name equals the key, and the
key is trimmed. -/
theorem applyOp_inv (b : Book) (op : BookOp)
    (hb : ∀ e ∈ b, (Prod.snd e).name = e.1 ∧ pyStrip e.1 = e.1) :
    ∀ e ∈ applyOp b op, (Prod.snd e).name = e.1 ∧ pyStrip e.1 = e.1 := by
  cases op with
  | add raw phs bd =>
    intro e he
    rcases mem_dictSet b (buildRecord raw phs bd).name (buildRecord raw phs bd) e he with h | h
    · subst h
      exact ⟨rfl, pyStrip_idem raw⟩
    · exact hb e h
  | del nm =>
    intro e he
    apply hb
    unfold applyOp delete at he
    dsimp only at he
    by_cases hf : (find b nm).isSome = true
    · rw [if_pos hf] at he
      exact mem_removeKey b nm e he
    · rw [if_neg hf] at he
      exact he
  | query nm => exact hb

theorem runOps_inv (ops : List BookOp) :
    ∀ e ∈ runOps ops, (Prod.snd e).name = e.1 ∧ pyStrip e.1 = e.1 := by
  unfold runOps
  suffices h : ∀ (b : Book), (∀ e ∈ b, (Prod.snd e).name = e.1 ∧ pyStrip e.1 = e.1) →
      ∀ e ∈ ops.foldl applyOp b, (Prod.snd e).name = e.1 ∧ pyStrip e.1 = e.1 by
    exact h [] (by intro e he; cases he)
  induction ops with
  | nil => intro b hb; exact hb
  | cons op rest ih =>
    intro b hb
    rw [List.foldl_cons]
    exact ih (applyOp b op) (applyOp_inv b op hb)

/-- C10, confirmed: after any sequence of `add_record`, `find`, `delete`
operations starting from the empty AddressBook, every successful
`find(k)` returns a record whose stored name value equals the key `k`,
and `k` is itself trimmed. -/
theorem find_runOps_name_eq_key (ops : List BookOp) (k : Str) (r : Record)
    (h : find (runOps ops) k = some r) : r.name = k ∧ pyStrip k = k :=
  runOps_inv ops (k, r) (find_some_mem (runOps ops) k r h)

/-- C10 witness: adding a record under the raw name "  Bob " and looking
up the trimmed key "Bob". -/
theorem find_runOps_name_eq_key_witness :
    (⟨("Bob").toList, [], none⟩ : Record).name = ("Bob").toList ∧
      pyStrip (("Bob").toList) = ("Bob").toList :=
  find_runOps_name_eq_key [BookOp.add (("  Bob ").toList) [] none] (("Bob").toList)
    ⟨("Bob").toList, [], none⟩ (by decide)

/-- C1, counterexample: the claim "an occurrence exactly 7 days after
today is not selected" fails on the code: with today = 2025-06-13, the
birthday 20.06.2001 has its occurrence on 2025-06-20 = today + 7 days,
and `get_upcoming_birthdays` selects it (the source checks
`today <= occurrence <= today + timedelta(days=7)` with both ends
included). -/
theorem upcoming_includes_day_seven :
    getUpcomingBirthdays ⟨2025, 6, 13⟩ bookSeven =
      Except.ok [((("Alice").toList), ⟨2025, 6, 20⟩)] ∧
    addDays ⟨2025, 6, 13⟩ 7 = ⟨2025, 6, 20⟩ := by
  exact ⟨by decide, by decide⟩

/-- C1, amended: `get_upcoming_birthdays` selects a record's occurrence
exactly when it lies in the CLOSED window `[today, today + 7 days]` —
eight calendar days including both ends, so an occurrence exactly 7 days
after today IS selected.  Stated for any book with distinct names whose
relevant record has a parsable stored birthday and a computable
occurrence, whenever the query returns normally. -/
theorem upcoming_window_iff (today : Date) (book : Book) (out : List (Str × Date))
    (n : Str) (r : Record) (b : Str) (bd occ : Date)
    (hnd : (book.map Prod.fst).Nodup)
    (hmem : (n, r) ∈ book)
    (hb : r.birthday = some b)
    (hsp : strptimeDMY b = some bd)
    (hoc : occurrenceOf today bd = some occ)
    (hok : getUpcomingBirthdays today book = Except.ok out) :
    ((n, weekendAdjust occ) ∈ out) ↔
      (dateLe today occ && dateLe occ (addDays today 7)) = true := by
  unfold getUpcomingBirthdays at hok
  constructor
  · intro hin
    obtain ⟨r', b', bd', occ', hm', h2', h3', h4', h5', _⟩ :=
      upcomingLoop_mem today (addDays today 7) book out n (weekendAdjust occ) hok hin
    have hrr : r' = r := keys_functional book hnd n r' r hm' hmem
    subst hrr
    rw [hb] at h2'
    injection h2' with h2'
    subst h2'
    rw [hsp] at h3'
    injection h3' with h3'
    subst h3'
    rw [hoc] at h4'
    injection h4' with h4'
    subst h4'
    exact h5'
  · intro hw
    exact upcomingLoop_mem_of today (addDays today 7) book out n r b bd occ hok hmem hb
      hsp hoc hw

/-- C1 witness: the amended window characterisation instantiated at
today = 2025-06-13 with the single record of `bookSeven`, whose occurrence
2025-06-20 is exactly 7 days ahead and is selected. -/
theorem upcoming_window_iff_witness :
    (((("Alice").toList, weekendAdjust ⟨2025, 6, 20⟩) ∈
        [((("Alice").toList), ⟨2025, 6, 20⟩)]) ↔
      (dateLe ⟨2025, 6, 13⟩ ⟨2025, 6, 20⟩ &&
        dateLe ⟨2025, 6, 20⟩ (addDays ⟨2025, 6, 13⟩ 7)) = true) :=
  upcoming_window_iff ⟨2025, 6, 13⟩ bookSeven
    [((("Alice").toList), ⟨2025, 6, 20⟩)] (("Alice").toList)
    ⟨("Alice").toList, [], some (("20.06.2001").toList)⟩ (("20.06.2001").toList)
    ⟨2001, 6, 20⟩ ⟨2025, 6, 20⟩ (by decide) (by decide) (by decide) (by decide)
    (by decide) (by decide)

/-- C2, code bug: `get_upcoming_birthdays` is NOT total.  The birthday
29.02.2024 is accepted by `Birthday` validation (2024 is a leap year,
below the 2025 ceiling), but when `today` lies in the non-leap year 2026
the query evaluates `birthday.replace(year=2026)`, which raises
`ValueError` — so the call errors instead of returning a sequence. -/
theorem upcoming_feb29_raises :
    mkBirthday ⟨2026, 10, 12⟩ (("29.02.2024").toList) =
      Except.ok (("29.02.2024").toList) ∧
    getUpcomingBirthdays ⟨2026, 10, 12⟩ bookLeap = Except.error PyErr.invalidDate := by
  exact ⟨by decide, by decide⟩

/-- C3, counterexample: the claim "Birthday(\"29.02.2024\") fails under
the year < 2025 rule" fails on the code: the source only rejects
`year >= 2025`, and 29.02.2024 is a real leap-year date not in the
future, so the constructor accepts and stores it. -/
theorem birthday_2024_accepted :
    mkBirthday ⟨2026, 10, 12⟩ (("29.02.2024").toList) =
      Except.ok (("29.02.2024").toList) := by
  decide

/-- C3, amended: `Birthday("29.02.2001")` fails (2001 is not a leap year;
`strptime` raises, re-raised as the generic invalid-date error), while
`Birthday("29.02.2024")` SUCCEEDS for any current date from 2024-02-29 on
— the ceiling rejects only years ≥ 2025. -/
theorem birthday_feb29_boundary (today : Date)
    (h : dateLe ⟨2024, 2, 29⟩ today = true) :
    mkBirthday today (("29.02.2001").toList) = Except.error PyErr.invalidDate ∧
    mkBirthday today (("29.02.2024").toList) = Except.ok (("29.02.2024").toList) := by
  have hlt : dateLt today ⟨2024, 2, 29⟩ = false := by
    unfold dateLe at h
    cases hx : dateLt today ⟨2024, 2, 29⟩
    · rfl
    · rw [hx] at h
      cases h
  have harith : ¬(today.year < 2024 ∨ (today.year = 2024 ∧
      (today.month < 2 ∨ (today.month = 2 ∧ today.day < 29)))) := by
    unfold dateLt at hlt
    simpa only [decide_eq_false_iff_not] using hlt
  constructor
  · rfl
  · have hred : mkBirthday today (("29.02.2024").toList) =
        (if today.year < 2024 ∨ (2024 : Nat) ≤ 0 then
          (Except.error PyErr.invalidDate : Except PyErr Str)
         else if (2025 : Nat) ≤ 2024 then Except.error PyErr.invalidDate
         else if dateLt today ⟨2024, 2, 29⟩ then Except.error PyErr.invalidDate
         else Except.ok (("29.02.2024").toList)) := rfl
    rw [hred]
    rw [if_neg (by omega : ¬(today.year < 2024 ∨ (2024 : Nat) ≤ 0))]
    rw [if_neg (by omega : ¬((2025 : Nat) ≤ 2024))]
    rw [if_neg (by simp [hlt] : ¬(dateLt today ⟨2024, 2, 29⟩ = true))]

/-- C3 witness: the boundary theorem applied at today = 2026-10-12. -/
theorem birthday_feb29_boundary_witness :
    mkBirthday ⟨2026, 10, 12⟩ (("29.02.2001").toList) =
      Except.error PyErr.invalidDate ∧
    mkBirthday ⟨2026, 10, 12⟩ (("29.02.2024").toList) =
      Except.ok (("29.02.2024").toList) :=
  birthday_feb29_boundary ⟨2026, 10, 12⟩ (by decide)

/-- C4, confirmed: every entry reported by `get_upcoming_birthdays` comes
from a record whose birthday occurrence lies in the window, and the
reported date is the occurrence shifted forward exactly 2 days when the
occurrence is a Saturday (weekday 5) — landing on Monday (weekday 0) —
exactly 1 day when it is a Sunday (weekday 6) — landing on Monday — and
unshifted on any other weekday.  The query is a pure function of the
book: the stored birthday value of every record is untouched. -/
theorem upcoming_weekend_shift (today : Date) (book : Book) (out : List (Str × Date))
    (n : Str) (dt : Date)
    (hok : getUpcomingBirthdays today book = Except.ok out)
    (hmem : (n, dt) ∈ out) :
    ∃ r b bd occ, (n, r) ∈ book ∧ r.birthday = some b ∧ strptimeDMY b = some bd ∧
      occurrenceOf today bd = some occ ∧
      (weekday occ = 5 → dt = addDays occ 2 ∧ weekday dt = 0) ∧
      (weekday occ = 6 → dt = addDays occ 1 ∧ weekday dt = 0) ∧
      (weekday occ ≠ 5 → weekday occ ≠ 6 → dt = occ) := by
  unfold getUpcomingBirthdays at hok
  obtain ⟨r, b, bd, occ, hm, h2, h3, h4, _, h6⟩ :=
    upcomingLoop_mem today (addDays today 7) book out n dt hok hmem
  have hv : validDate occ.year occ.month occ.day = true := occurrenceOf_valid today bd occ h4
  refine ⟨r, b, bd, occ, hm, h2, h3, h4, ?_, ?_, ?_⟩
  · intro h5w
    have ha : weekendAdjust occ = addDays occ 2 := by
      unfold weekendAdjust
      rw [if_pos h5w]
    refine ⟨by rw [h6, ha], ?_⟩
    rw [h6, ha, weekday_addDays occ 2 hv, h5w]
  · intro h6w
    have hne : weekday occ ≠ 5 := by omega
    have ha : weekendAdjust occ = addDays occ 1 := by
      unfold weekendAdjust
      rw [if_neg hne, if_pos h6w]
    refine ⟨by rw [h6, ha], ?_⟩
    rw [h6, ha, weekday_addDays occ 1 hv, h6w]
  · intro hn5 hn6
    have ha : weekendAdjust occ = occ := by
      unfold weekendAdjust
      rw [if_neg hn5, if_neg hn6]
    rw [h6, ha]

/-- C4 witness: with today = 2025-06-13, the birthday 14.06.2000 of
`bookSat` occurs on Saturday 2025-06-14 and is reported as Monday
2025-06-16. -/
theorem upcoming_weekend_shift_witness :
    ∃ r b bd occ, ((("Carol").toList, r) ∈ bookSat) ∧ r.birthday = some b ∧
      strptimeDMY b = some bd ∧ occurrenceOf ⟨2025, 6, 13⟩ bd = some occ ∧
      (weekday occ = 5 → (⟨2025, 6, 16⟩ : Date) = addDays occ 2 ∧
        weekday ⟨2025, 6, 16⟩ = 0) ∧
      (weekday occ = 6 → (⟨2025, 6, 16⟩ : Date) = addDays occ 1 ∧
        weekday ⟨2025, 6, 16⟩ = 0) ∧
      (weekday occ ≠ 5 → weekday occ ≠ 6 → (⟨2025, 6, 16⟩ : Date) = occ) :=
  upcoming_weekend_shift ⟨2025, 6, 13⟩ bookSat
    [((("Carol").toList), ⟨2025, 6, 16⟩)] (("Carol").toList) ⟨2025, 6, 16⟩
    (by decide) (by decide)

end BotHelper
